import Mathlib

/-!
Verification development for the Orion voice-assistant core
(fact store, routers, admin handlers, response orchestrator).

Each Python source construct is shallowly embedded as an executable Lean
definition; theorems below settle the specification claims against them.
-/

set_option autoImplicit false

namespace Orion

/-! ## Shared Python string helpers

Python `str.strip()` / `str.lower()` modelled on the character list.
All inputs exercised here are ASCII, where `Char.toLower` agrees with
Python's lowercasing. Python `\s` is space, tab, newline, carriage
return, form feed and vertical tab. -/

def pyIsSpace (c : Char) : Bool :=
  c = ' ' || c = '\t' || c = '\n' || c = '\x0d' || c = '\x0b' || c = '\x0c'

def pyStrip (s : String) : String :=
  ⟨((s.data.dropWhile pyIsSpace).reverse.dropWhile pyIsSpace).reverse⟩

def pyLower (s : String) : String :=
  ⟨s.data.map Char.toLower⟩

/-- Python `needle in hay` (contiguous substring test) on char lists. -/
def listContainsSub (needle : List Char) : List Char → Bool
  | [] => needle.isEmpty
  | c :: rest => needle.isPrefixOf (c :: rest) || listContainsSub needle rest

/-- Python `needle in hay` on strings. -/
def strContainsSub (hay needle : String) : Bool :=
  listContainsSub needle.data hay.data

/-! ## Python dict model

`facts` and the skill dictionaries are Python `dict`s keyed by strings.
`dictInsert` is `d[k] = v`: it overwrites the value at an existing key in
place (keys stay unique and keep their insertion position) or appends a
fresh binding at the end. `lookupD` is `d.get(k)`. -/

def dictInsert {α : Type} : List (String × α) → String → α → List (String × α)
  | [], k, v => [(k, v)]
  | (k', v') :: rest, k, v =>
      if k' = k then (k, v) :: rest else (k', v') :: dictInsert rest k v

def lookupD {α : Type} : List (String × α) → String → Option α
  | [], _ => none
  | (k', v) :: rest, k => if k' = k then some v else lookupD rest k

theorem lookupD_dictInsert {α : Type} (l : List (String × α)) (k k' : String) (v : α) :
    lookupD (dictInsert l k v) k' = if k' = k then some v else lookupD l k' := by
  induction l with
  | nil =>
      by_cases h : k = k'
      · subst h; simp [dictInsert, lookupD]
      · have h' : ¬ k' = k := fun e => h e.symm
        simp [dictInsert, lookupD, h, h']
  | cons p rest ih =>
      obtain ⟨k'', v''⟩ := p
      by_cases h1 : k'' = k
      · subst h1
        by_cases h2 : k' = k''
        · subst h2; simp [dictInsert, lookupD]
        · have h2' : ¬ k'' = k' := fun e => h2 e.symm
          simp [dictInsert, lookupD, h2, h2']
      · by_cases h2 : k'' = k'
        · subst h2
          simp [dictInsert, lookupD, h1]
        · simp [dictInsert, lookupD, h1, h2, ih]

/-! ## Fact store — `orion/core/memory.py`

The persisted document is `{facts: dict, conversations: list}`.  A
conversation entry holds an optional `user` and an optional `bot` field
(only fields passed non-`None` end up in the JSON object). -/

structure Turn where
  user : Option String
  bot : Option String
deriving DecidableEq, Repr

structure MemDoc where
  facts : List (String × String)
  conversations : List Turn
deriving DecidableEq, Repr

def emptyDoc : MemDoc := { facts := [], conversations := [] }

/-- `MAX_CONVERSATIONS = 500` — cap growth so the file doesn't balloon. -/
def MAX_CONVERSATIONS : Nat := 500

namespace Memory

/-- `Memory.remember`: `data.setdefault("facts", {})[key] = value` then
persist.  The key is stored exactly as given — no normalization at this
layer. -/
def remember (doc : MemDoc) (key value : String) : MemDoc :=
  { doc with facts := dictInsert doc.facts key value }

/-- `Memory.recallKey`: `self._read().get("facts", {}).get(key)`. -/
def recallKey (doc : MemDoc) (key : String) : Option String :=
  lookupD doc.facts key

/-- `Memory.facts_like`: case-insensitive substring match of the needle
against either the key or the value; an empty needle matches everything. -/
def facts_like (doc : MemDoc) (needle : String) : List (String × String) :=
  let n := pyLower needle
  doc.facts.filter fun kv => strContainsSub (pyLower kv.1) n || strContainsSub (pyLower kv.2) n

/-- `conv[:] = conv[-MAX_CONVERSATIONS:]` applied when the list exceeds
the cap (the trim step inside `append_conversation`). -/
def trimConv (l : List Turn) : List Turn :=
  if l.length > MAX_CONVERSATIONS then l.drop (l.length - MAX_CONVERSATIONS) else l

/-- `Memory.append_conversation(user=None, bot=None)`: builds an entry
from the present fields; if the entry is non-empty it is appended and the
list trimmed to the cap, otherwise nothing is written. -/
def appendConversation (doc : MemDoc) (user bot : Option String) : MemDoc :=
  if user.isSome || bot.isSome then
    { doc with conversations := trimConv (doc.conversations ++ [{ user := user, bot := bot }]) }
  else doc

/-- Repeated `append_conversation` calls, one per `(user?, bot?)` pair. -/
def appendMany (doc : MemDoc) (ps : List (Option String × Option String)) : MemDoc :=
  ps.foldl (fun d p => appendConversation d p.1 p.2) doc

/-! ### On-disk states — `Memory.__init__` / `Memory._read`

`_read` parses the backing file: a blank file yields the empty document,
a syntactically malformed file makes `json.loads` raise, a missing file
makes `read_text` raise.  `__init__` writes the empty document when the
file is absent, and also resets it when `_read` raises; a blank-but-valid
file is left untouched. -/

inductive RawDoc where
  | absent
  | blank
  | malformed
  | valid (d : MemDoc)
deriving DecidableEq

inductive ReadErr where
  | ioError
  | jsonError
deriving DecidableEq, Repr

/-- `Memory._read` on a given disk state. -/
def readDoc : RawDoc → Except ReadErr MemDoc
  | .absent => .error .ioError
  | .blank => .ok emptyDoc
  | .malformed => .error .jsonError
  | .valid d => .ok d

/-- `Memory.__init__`'s effect on the disk state. -/
def initMemory : RawDoc → Memory.RawDoc
  | .absent => .valid emptyDoc
  | .blank => .blank
  | .malformed => .valid emptyDoc
  | .valid d => .valid d

/-- `Memory.recallKey` reading from disk: `_read` has no exception handler
here, so a read failure propagates. -/
def recallOnDisk (raw : RawDoc) (key : String) : Except ReadErr (Option String) :=
  (readDoc raw).map (fun d => recallKey d key)

/-- `Memory.facts_like` reading from disk. -/
def factsLikeOnDisk (raw : RawDoc) (needle : String) : Except ReadErr (List (String × String)) :=
  (readDoc raw).map (fun d => facts_like d needle)

end Memory

/-! ### Fact-store lemmas -/

theorem trimConv_length_le (l : List Turn) :
    (Memory.trimConv l).length ≤ MAX_CONVERSATIONS := by
  unfold Memory.trimConv
  by_cases h : l.length > MAX_CONVERSATIONS
  · simp only [h, if_true, List.length_drop]
    omega
  · simp only [h, if_false]
    omega

theorem trimConv_append (l : List Turn) (x : Turn) :
    Memory.trimConv (Memory.trimConv l ++ [x]) = Memory.trimConv (l ++ [x]) := by
  unfold Memory.trimConv
  by_cases h : l.length > MAX_CONVERSATIONS
  · have h500 : 0 < MAX_CONVERSATIONS := by decide
    have hdl : (l.drop (l.length - MAX_CONVERSATIONS)).length = MAX_CONVERSATIONS := by
      simp [List.length_drop]; omega
    simp only [h, if_true, List.length_append, hdl, List.length_cons, List.length_nil]
    have h1 : MAX_CONVERSATIONS + 1 > MAX_CONVERSATIONS := by omega
    have h2 : l.length + 1 > MAX_CONVERSATIONS := by omega
    simp only [h1, if_true, h2]
    have e1 : MAX_CONVERSATIONS + 1 - MAX_CONVERSATIONS = 1 := by omega
    rw [e1, List.drop_append_eq_append_drop, List.drop_append_eq_append_drop,
        List.drop_drop, hdl]
    have e2 : 1 - MAX_CONVERSATIONS = 0 := by omega
    have e3 : l.length + 1 - MAX_CONVERSATIONS - l.length = 0 := by omega
    have e4 : l.length - MAX_CONVERSATIONS + 1 = l.length + 1 - MAX_CONVERSATIONS := by omega
    rw [e2, e3, e4]
  · simp only [h, if_false]

theorem appendMany_conversations (ps : List (Option String × Option String))
    (hps : ∀ p ∈ ps, p.1.isSome = true ∨ p.2.isSome = true) :
    (Memory.appendMany emptyDoc ps).conversations
      = Memory.trimConv (ps.map fun p => Turn.mk p.1 p.2) := by
  induction ps using List.reverseRecOn with
  | nil => rfl
  | append_singleton qs p ih =>
      have hq : ∀ q ∈ qs, q.1.isSome = true ∨ q.2.isSome = true := by
        intro q hqmem
        exact hps q (by simp [hqmem])
      have hp : p.1.isSome = true ∨ p.2.isSome = true := hps p (by simp)
      have hstep : Memory.appendMany emptyDoc (qs ++ [p])
          = Memory.appendConversation (Memory.appendMany emptyDoc qs) p.1 p.2 := by
        unfold Memory.appendMany
        rw [List.foldl_append]
        rfl
      rw [hstep]
      unfold Memory.appendConversation
      have hcond : (p.1.isSome || p.2.isSome) = true := by
        rcases hp with h | h <;> simp [h]
      simp only [hcond, if_true]
      rw [ih hq, trimConv_append, List.map_append]
      rfl

/-! ### Claim C8 — remember/recallKey round-trip, last-write-wins -/

/-- C8: for every key `k` and value `v`, `remember(k, v)` then `recallKey(k)`
returns `v`; a later `remember` with the same key overwrites the earlier
value (last-write-wins, one value per key). -/
theorem remember_recall_roundtrip (doc : MemDoc) (k v v' : String) :
    Memory.recallKey (Memory.remember doc k v) k = some v ∧
    Memory.recallKey (Memory.remember (Memory.remember doc k v) k v') k = some v' := by
  constructor <;>
    · unfold Memory.recallKey Memory.remember
      rw [lookupD_dictInsert]
      simp

/-! ### Claim C4 — conversation-log cap -/

/-- C4: every `append_conversation` call that actually appends a turn
leaves at most 500 stored turns, and appending more than 500 turns from
the empty log leaves exactly the last 500 in their original order. -/
theorem append_conversation_cap (doc : MemDoc) (u b : Option String)
    (ps : List (Option String × Option String))
    (hu : u.isSome = true ∨ b.isSome = true)
    (hps : ∀ p ∈ ps, p.1.isSome = true ∨ p.2.isSome = true)
    (hlen : ps.length > MAX_CONVERSATIONS) :
    (Memory.appendConversation doc u b).conversations.length ≤ MAX_CONVERSATIONS ∧
    (Memory.appendMany emptyDoc ps).conversations
      = (ps.map fun p => Turn.mk p.1 p.2).drop (ps.length - MAX_CONVERSATIONS) ∧
    (Memory.appendMany emptyDoc ps).conversations.length = MAX_CONVERSATIONS := by
  have hcond : (u.isSome || b.isSome) = true := by
    rcases hu with h | h <;> simp [h]
  have hmap : (ps.map fun p => Turn.mk p.1 p.2).length = ps.length := by simp
  refine ⟨?_, ?_, ?_⟩
  · unfold Memory.appendConversation
    simp only [hcond, if_true]
    exact trimConv_length_le _
  · rw [appendMany_conversations ps hps]
    unfold Memory.trimConv
    rw [hmap]
    simp only [hlen, if_true]
  · rw [appendMany_conversations ps hps]
    unfold Memory.trimConv
    rw [hmap]
    simp only [hlen, if_true, List.length_drop, hmap]
    omega

/-- C4 witness: 501 appends of a user-only turn from the empty log leave
exactly the last 500 turns. -/
theorem append_conversation_cap_witness :
    (Memory.appendConversation emptyDoc (some "hi") none).conversations.length
        ≤ MAX_CONVERSATIONS ∧
    (Memory.appendMany emptyDoc
        (List.replicate 501 ((some "hi" : Option String), (none : Option String)))).conversations
      = ((List.replicate 501 ((some "hi" : Option String), (none : Option String))).map
          fun p => Turn.mk p.1 p.2).drop
          ((List.replicate 501 ((some "hi" : Option String), (none : Option String))).length
            - MAX_CONVERSATIONS) ∧
    (Memory.appendMany emptyDoc
        (List.replicate 501 ((some "hi" : Option String), (none : Option String)))).conversations.length
      = MAX_CONVERSATIONS :=
  append_conversation_cap emptyDoc (some "hi") none
    (List.replicate 501 ((some "hi" : Option String), (none : Option String)))
    (Or.inl rfl)
    (fun p hp => by rw [List.eq_of_mem_replicate hp]; exact Or.inl rfl)
    (by rw [List.length_replicate]; decide)

/-! ### Claim C3 — where key normalization happens -/

/-- C3 counterexample: `Memory.remember` performs no key normalization —
remembering under `"User Name"` leaves nothing under `"user_name"`, the
key the claim says the fact would be stored under. -/
theorem remember_counterexample_no_normalization :
    Memory.recallKey (Memory.remember emptyDoc "User Name" "Ben") "user_name" = none ∧
    Memory.recallKey (Memory.remember emptyDoc "User Name" "Ben") "User Name" = some "Ben" := by
  constructor <;> rfl

/-! ### Claim C5 — absent/corrupt backing document -/

/-- C5 counterexample: after construction, a document that has become
syntactically malformed makes `recallKey` raise (there is no exception
handler in `_read`/`recallKey`), rather than being treated as empty. -/
theorem corrupt_read_not_treated_as_empty :
    Memory.recallOnDisk Memory.RawDoc.malformed "user_name" = Except.error Memory.ReadErr.jsonError := rfl

/-- C5 amended: an absent or unparseable backing document is reset to the
empty document at construction (so reads after construction always
succeed), and a blank document reads as empty; but a document made
malformed after construction makes read operations raise. -/
theorem init_resets_bad_document (raw : Memory.RawDoc) (k n : String) :
    Memory.initMemory Memory.RawDoc.absent = Memory.RawDoc.valid emptyDoc ∧
    Memory.initMemory Memory.RawDoc.malformed = Memory.RawDoc.valid emptyDoc ∧
    (∃ d, Memory.readDoc (Memory.initMemory raw) = Except.ok d) ∧
    (∃ v, Memory.recallOnDisk (Memory.initMemory raw) k = Except.ok v) ∧
    Memory.recallOnDisk Memory.RawDoc.blank k = Except.ok none ∧
    Memory.factsLikeOnDisk Memory.RawDoc.blank n = Except.ok [] := by
  refine ⟨rfl, rfl, ?_, ?_, rfl, rfl⟩
  · cases raw <;> exact ⟨_, rfl⟩
  · cases raw <;> exact ⟨_, rfl⟩

/-! ## Hand-translated regex matchers

Each compiled regex in the source is translated to an executable matcher
over the character list.  Python `\w` on the ASCII inputs used here is
alphanumeric-or-underscore; `re.I` is handled by lowercasing the
haystack (all pattern literals are already lowercase). -/

abbrev Chars := List Char

def isWordChar (c : Char) : Bool := c.isAlphanum || c = '_'

def isWordOpt : Option Char → Bool
  | none => false
  | some c => isWordChar c

/-- Match a literal, returning the remaining input. -/
def pLit (w : String) (s : Chars) : Option Chars :=
  if w.data.isPrefixOf s then some (s.drop w.data.length) else none

/-- `\s+` — one or more whitespace characters. -/
def pWs1 (s : Chars) : Option Chars :=
  let rest := s.dropWhile pyIsSpace
  if rest.length < s.length then some rest else none

def pSeq (p q : Chars → Option Chars) : Chars → Option Chars :=
  fun s => (p s).bind q

/-- Ordered alternation.  Used only where the alternatives are
distinguished by their first characters, so no backtracking into the
alternation is ever needed. -/
def pAltP (p q : Chars → Option Chars) : Chars → Option Chars :=
  fun s => match p s with
    | some r => some r
    | none => q s

/-- `re.search`: try the attempt at every position, left to right,
threading the previous character for word-boundary tests. -/
def searchAux (attempt : Option Char → Chars → Bool) : Option Char → Chars → Bool
  | prev, [] => attempt prev []
  | prev, c :: cs => attempt prev (c :: cs) || searchAux attempt (some c) cs

def reSearch (attempt : Option Char → Chars → Bool) (s : String) : Bool :=
  searchAux attempt none s.data

/-- Leftmost search returning a capture. -/
def searchCapAux (attempt : Option Char → Chars → Option String) :
    Option Char → Chars → Option String
  | prev, [] => attempt prev []
  | prev, c :: cs =>
      match attempt prev (c :: cs) with
      | some r => some r
      | none => searchCapAux attempt (some c) cs

/-- Word-bounded case-insensitive search for a lowercase literal: the
shape `\b<lit>\b` used throughout the legacy rule table and admin
grammar. -/
def searchBoundedWord (w : String) (s : String) : Bool :=
  reSearch (fun prev cs =>
    !isWordOpt prev &&
    (match pLit w cs with
     | some rest => !isWordOpt rest.head?
     | none => false)) (pyLower s)

/-! ## Memory bridge — `orion/core/memory_bridge.py` -/

/-- `what(?:'s| is)\s+my\s+` — the shared prefix of the QMAP patterns.
The alternatives start with distinct characters, so committed choice is
faithful. -/
def pWhatIsMy : Chars → Option Chars :=
  pSeq (pLit "what")
    (pSeq (pAltP (pLit "'s") (pLit " is")) (pSeq pWs1 (pSeq (pLit "my") pWs1)))

/-- Search for `\bwhat(?:'s| is)\s+my\s+<tail>\b` where the tail both
starts and ends with a word character. -/
def rxWhatsMy (tail : Chars → Option Chars) (s : String) : Bool :=
  reSearch (fun prev cs =>
    !isWordOpt prev &&
    (match (pSeq pWhatIsMy tail) cs with
     | some rest => !isWordOpt rest.head?
     | none => false)) s

/-- `\bwho\s+am\s+i\b` -/
def rxWhoAmI (s : String) : Bool :=
  reSearch (fun prev cs =>
    !isWordOpt prev &&
    (match (pSeq (pLit "who") (pSeq pWs1 (pSeq (pLit "am") (pSeq pWs1 (pLit "i"))))) cs with
     | some rest => !isWordOpt rest.head?
     | none => false)) s

/-- `\bwhere\s+(?:do\s+i\s+live|is\s+my\s+home)\b` -/
def rxWhereHome (s : String) : Bool :=
  reSearch (fun prev cs =>
    !isWordOpt prev &&
    (match (pSeq (pLit "where")
        (pSeq pWs1
          (pAltP (pSeq (pLit "do") (pSeq pWs1 (pSeq (pLit "i") (pSeq pWs1 (pLit "live")))))
                 (pSeq (pLit "is") (pSeq pWs1 (pSeq (pLit "my") (pSeq pWs1 (pLit "home")))))))) cs with
     | some rest => !isWordOpt rest.head?
     | none => false)) s

/-- `k.replace('_', ' ')` -/
def keySpaced (k : String) : String :=
  ⟨k.data.map fun c => if c = '_' then ' ' else c⟩

/-- One row of `QMAP`: compiled question pattern, memory key, reply
template (the template's `{v}` hole is the function argument). -/
structure QEntry where
  rx : String → Bool
  key : String
  template : String → String

/-- The fixed question→key→template table (in source order). -/
def QMAP : List QEntry :=
  [ ⟨rxWhatsMy (pLit "name"), "user_name", fun v => "Your name is " ++ v ++ "."⟩,
    ⟨rxWhoAmI, "user_name", fun v => "You are " ++ v ++ "."⟩,
    ⟨rxWhereHome, "home_city", fun v => "You live in " ++ v ++ "."⟩,
    ⟨rxWhatsMy (pLit "role"), "role", fun v => "Your role is " ++ v ++ "."⟩,
    ⟨rxWhatsMy (pSeq (pLit "favorite") (pSeq pWs1 (pLit "color"))), "favorite_color",
      fun v => "Your favorite color is " ++ v ++ "."⟩,
    ⟨rxWhatsMy (pSeq (pLit "coffee") (pSeq pWs1 (pLit "order"))), "coffee_order",
      fun v => "Your coffee order is " ++ v ++ "."⟩,
    ⟨rxWhatsMy (pLit "timezone"), "timezone", fun v => "Your timezone is " ++ v ++ "."⟩ ]

/-- Character class `[a-z _-]` of the generic question pattern. -/
def genKeyClass (c : Char) : Bool :=
  ('a' ≤ c && c ≤ 'z') || c = ' ' || c = '_' || c = '-'

/-- `\bwhat(?:'s| is)\s+my\s+([a-z][a-z _-]{1,40})\??$` — the generic
fallback question.  The capture is greedy; since `?` and end-of-string
are not in the class, a class run longer than 41 characters can never be
completed, so no backtracking case remains. -/
def genAttempt (prev : Option Char) (s : Chars) : Option String :=
  if isWordOpt prev then none
  else
    match pWhatIsMy s with
    | none => none
    | some rest =>
        match rest with
        | [] => none
        | c0 :: rest1 =>
            if 'a' ≤ c0 && c0 ≤ 'z' then
              let run := rest1.takeWhile genKeyClass
              let body := run.take 40
              let tail := rest1.drop body.length
              match tail with
              | [] => some ⟨c0 :: body⟩
              | ['?'] => some ⟨c0 :: body⟩
              | _ => none
            else none

def genSearch (s : String) : Option String :=
  searchCapAux genAttempt none s.data

/-- `.strip().lower().replace("-", "_").replace(" ", "_")` applied to the
captured generic key. -/
def normalizeCaptured (raw : String) : String :=
  ⟨(pyLower (pyStrip raw)).data.map fun c => if c = '-' || c = ' ' then '_' else c⟩

/-- `memory_answer(mem, text)`: fixed QMAP patterns first (first match
wins), then the generic `what is my X` pattern with a `favorite_X`
fallback, else `None`. -/
def memoryAnswer (doc : MemDoc) (text : String) : Option String :=
  let s := pyStrip (pyLower text)
  match QMAP.find? (fun q => q.rx s) with
  | some q =>
      match Memory.recallKey doc q.key with
      | some v => some (q.template v)
      | none => some ("I don't have your " ++ keySpaced q.key ++ " yet.")
  | none =>
      match genSearch s with
      | some raw =>
          let key := normalizeCaptured raw
          match Memory.recallKey doc key with
          | some v => some ("Your " ++ keySpaced key ++ " is " ++ v ++ ".")
          | none =>
              match Memory.recallKey doc ("favorite_" ++ key) with
              | some v => some ("Your " ++ keySpaced key ++ " is " ++ v ++ ".")
              | none => some ("I don't have your " ++ keySpaced key ++ " yet.")
      | none => none

def PREFERRED_FACT_KEYS : List String :=
  ["user_name", "role", "home_city", "home_country",
   "weather_default", "units", "favorite_color", "coffee_order", "timezone"]

/-- The dedupe-and-clamp loop at the end of `relevant_facts`. -/
def dedupClamp (ps : List (String × String)) (limit : Nat) : List (String × String) :=
  (ps.foldl (fun (acc : List (String × String) × List String) kv =>
      if acc.1.length ≥ limit then acc
      else if acc.2.contains kv.1 then acc
      else (acc.1 ++ [kv], kv.1 :: acc.2)) ([], [])).1

/-- `relevant_facts(mem, text, limit)`. -/
def relevantFacts (doc : MemDoc) (text : String) (limit : Nat) : List (String × String) :=
  let allFacts := Memory.facts_like doc ""
  if allFacts.isEmpty then []
  else
    let s := pyLower text
    let picks := allFacts.filter fun kv =>
      ((pyLower kv.1).splitOn "_").any fun w => strContainsSub s w
    let picks :=
      if picks.isEmpty then
        PREFERRED_FACT_KEYS.foldl (fun acc k =>
          match Memory.recallKey doc k with
          | some v => acc ++ [(k, v)]
          | none => acc) []
      else picks
    dedupClamp picks limit

/-- Python `str.title()` on ASCII text. -/
def titleAux : Bool → Chars → Chars
  | _, [] => []
  | prevAlpha, c :: cs =>
      let c' := if c.isAlpha then (if prevAlpha then c.toLower else c.toUpper) else c
      c' :: titleAux c.isAlpha cs

def pyTitle (s : String) : String := ⟨titleAux false s.data⟩

/-- `format_fact_context(facts)`. -/
def formatFactContext (facts : List (String × String)) : String :=
  if facts.isEmpty then ""
  else
    "Known user facts:\n" ++
      String.intercalate "\n"
        (facts.map fun kv => "- " ++ pyTitle (keySpaced kv.1) ++ ": " ++ kv.2)

/-! ## Legacy router — `orion/core/router.py`

The static `RULES` table.  Each group `\b(w1|w2|..)\b` is equivalent to a
word-bounded search for any alternative (optional suffixes such as
`temp(?:erature)?` and `headline[s]?` are expanded into both words;
`look\s*up` gets its own matcher). -/

def searchLookUp (s : String) : Bool :=
  reSearch (fun prev cs =>
    !isWordOpt prev &&
    (match pLit "look" cs with
     | some rest =>
         match pLit "up" (rest.dropWhile pyIsSpace) with
         | some rest3 => !isWordOpt rest3.head?
         | none => false
     | none => false)) (pyLower s)

/-- `^\s*remember\s*:` -/
def rememberPrefixMatch (s : String) : Bool :=
  match pLit "remember" ((pyLower s).data.dropWhile pyIsSpace) with
  | some r2 => (r2.dropWhile pyIsSpace).head? = some ':'
  | none => false

def legacyRules : List (String × (String → Bool)) :=
  [ ("weather", fun s =>
      ["weather", "forecast", "temp", "temperature", "rain", "wind", "snow",
       "humidity", "humid"].any (searchBoundedWord · s)),
    ("news", fun s =>
      ["news", "headline", "headlines", "top story", "top stories",
       "breaking"].any (searchBoundedWord · s)),
    ("search", fun s =>
      ["search", "lookup", "find", "query"].any (searchBoundedWord · s) || searchLookUp s),
    ("remember", fun s => rememberPrefixMatch s) ]

/-- `route(text)`: first rule whose pattern matches anywhere wins;
returns the matched rule's skill name (`SkillHit.name`). -/
def legacyRoute (text : String) : Option String :=
  (legacyRules.find? (fun r => r.2 text)).map (·.1)

/-! ## Skill registry — `orion/core/plugins.py` -/

/-- A loaded skill unit.  Trigger patterns are compiled regexes, embedded
as search predicates; `run` may raise, embedded as `Except`. -/
structure LoadedSkill where
  name : String
  description : String
  patterns : List (String → Bool)
  run : String → Except String String

/-- The persisted `_enabled.json` mapping. -/
abbrev EnableState := List (String × Bool)

/-- `_is_enabled`: default to enabled unless explicitly false. -/
def isEnabledIn (name : String) (state : EnableState) : Bool :=
  (lookupD state name).getD true

/-- The state update performed by `set_enabled`. -/
def setEnabledState (state : EnableState) (name : String) (enabled : Bool) : EnableState :=
  dictInsert state name enabled

/-- The confirmation text returned by `set_enabled`. -/
def setEnabledMsg (name : String) (enabled : Bool) : String :=
  (if enabled then "Enabled" else "Disabled") ++ " skill '" ++ name ++
    "'. Say 'skill reload' to apply."

/-- The result-dict building loop of `load_skills`. -/
def loadSkillsGo (state : EnableState) :
    List (Option LoadedSkill) → List (String × LoadedSkill) → List (String × LoadedSkill)
  | [], acc => acc
  | none :: rest, acc => loadSkillsGo state rest acc
  | some sk :: rest, acc =>
      loadSkillsGo state rest
        (if isEnabledIn sk.name state then dictInsert acc sk.name sk else acc)

/-- `load_skills()`: import every discovered candidate (a failed import
or missing callable `run` yields no unit) and keep the enabled ones,
keyed by name in a fresh dict. -/
def loadSkills (candidates : List (Option LoadedSkill)) (state : EnableState) :
    List (String × LoadedSkill) :=
  loadSkillsGo state candidates []

/-- `list_all()`: every successfully loadable candidate with its
enable-state and description. -/
def listAll (candidates : List (Option LoadedSkill)) (state : EnableState) :
    List (String × Bool × String) :=
  candidates.foldl (fun out c =>
    match c with
    | none => out
    | some sk => out ++ [(sk.name, isEnabledIn sk.name state, sk.description)]) []

/-- Character class `[a-zA-Z0-9_]` kept by `scaffold`'s sanitizer. -/
def skillClassChar (c : Char) : Bool :=
  ('a' ≤ c && c ≤ 'z') || ('A' ≤ c && c ≤ 'Z') || ('0' ≤ c && c ≤ '9') || c = '_'

/-- `re.sub(r"[^a-zA-Z0-9_]", "_", name).lower()` -/
def sanitizeName (name : String) : String :=
  pyLower ⟨name.data.map fun c => if skillClassChar c then c else '_'⟩

/-- `SKILLS_DIR / f"{safe}.py"` (the directory rendered as a prefix). -/
def skillPath (name : String) : String :=
  "skills/" ++ sanitizeName name ++ ".py"

/-- The template written by `scaffold` (the f-string with `safe`
substituted; `\\\\b` in the non-raw f-string renders as two
backslashes). -/
def skillTemplate (safe : String) : String :=
  "# skills/" ++ safe ++ ".py\n" ++
  "NAME = \"" ++ safe ++ "\"\n" ++
  "DESCRIPTION = \"Describe what " ++ safe ++ " does.\"\n" ++
  "TRIGGERS = [r\"\\\\b" ++ safe ++ "\\\\b\"]  # adjust as needed\n" ++
  "\n" ++
  "def run(query: str, context: dict) -> str:\n" ++
  "    # implement your logic here\n" ++
  "    return \"Hello from " ++ safe ++ "!\"\n"

/-- The skills directory as a path→contents mapping. -/
abbrev FS := List (String × String)

/-- `scaffold(name)`: sanitize, and write the template only when no file
exists at the target path. -/
def scaffold (fs : FS) (name : String) : String × FS :=
  let safe := sanitizeName name
  let path := "skills/" ++ safe ++ ".py"
  match lookupD fs path with
  | some _ => (path, fs)
  | none => (path, dictInsert fs path (skillTemplate safe))

/-- `PluginRouter`: flat `(name, pattern)` rule list built from the
loaded skill dict in its iteration order. -/
structure PluginRouter where
  skills : List (String × LoadedSkill)
  rules : List (String × (String → Bool))

def mkPluginRouter (skills : List (String × LoadedSkill)) : PluginRouter :=
  { skills := skills,
    rules := skills.foldl (fun acc nsk => acc ++ nsk.2.patterns.map (fun pat => (nsk.1, pat))) [] }

/-- `PluginRouter.route`: first matching rule wins; the result is looked
up in the skill dict. -/
def PluginRouter.route (r : PluginRouter) (text : String) : Option LoadedSkill :=
  match r.rules.find? (fun rule => rule.2 text) with
  | some rule => lookupD r.skills rule.1
  | none => none

/-! ## Admin command grammar — `orion/core/admin.py`

The handlers are split into a pure command parser (the compiled regexes
plus the text clean-up) and an executor; in the source the executor's
`say` happens inside each branch, one call per consumed utterance. -/

/-- Full match of one of the alternatives followed by optional `[.!]`. -/
def fullWithPunct (alts : List String) (s : String) : Bool :=
  alts.any fun a => s = a || s = a ++ "." || s = a ++ "!"

/-- Separator class `[,\s:\-]` of `SKILL_CMD_RE`. -/
def sepChar (c : Char) : Bool := c = ',' || pyIsSpace c || c = ':' || c = '-'

/-- One attempt of `\bskills?\b[,\s:\-]+(.*)$`: optional `s` is greedy
with a backtrack when its trailing `\b` fails; the separator run is
greedy so the capture is the remainder after it (inputs contain no
newline, so `(.*)$` is the whole remainder). -/
def skillCmdAttempt (prev : Option Char) (s : Chars) : Option String :=
  if isWordOpt prev then none
  else
    match pLit "skill" s with
    | none => none
    | some rest =>
        let after :=
          match rest with
          | 's' :: rest2 =>
              if !isWordOpt rest2.head? then some rest2
              else if !isWordOpt rest.head? then some rest else none
          | _ => if !isWordOpt rest.head? then some rest else none
        match after with
        | none => none
        | some r =>
            let r2 := r.dropWhile sepChar
            if r2.length < r.length then some ⟨r2⟩ else none

def skillCmdSearch (low : String) : Option String :=
  searchCapAux skillCmdAttempt none low.data

/-- `cmd.rstrip(".!,?")`. -/
def rstripPunct (cmd : String) : String :=
  ⟨(cmd.data.reverse.dropWhile fun c => c = '.' || c = '!' || c = ',' || c = '?').reverse⟩

/-- Does `cmd` end in the word `w` with a word boundary before it? -/
def endsWithWordSuffix (w : String) (cmd : String) : Bool :=
  let cs := cmd.data
  let n := cs.length
  let m := w.data.length
  decide (m ≤ n) && cs.drop (n - m) = w.data && !isWordOpt (cs.take (n - m)).getLast?

/-- `re.sub(r"\b(it|please|now|thanks?)\b$", "", cmd).strip()` —
alternatives in source order, `thanks?` greedy. -/
def stripFillerOnce (cmd : String) : String :=
  match ["it", "please", "now", "thanks", "thank"].find? (fun w => endsWithWordSuffix w cmd) with
  | some w => pyStrip ⟨cmd.data.take (cmd.data.length - w.data.length)⟩
  | none => pyStrip cmd

/-- `re.sub(r"^(gaffled|scaf|scafold)\b", "scaffold", cmd)` —
alternatives in source order, each with its trailing `\b` check. -/
def fixScaffoldTypo (cmd : String) : String :=
  match ["gaffled", "scaf", "scafold"].find? (fun w =>
      w.data.isPrefixOf cmd.data && !isWordOpt (cmd.data.drop w.data.length).head?) with
  | some w => "scaffold" ++ (⟨cmd.data.drop w.data.length⟩ : String)
  | none => cmd

inductive SkillAdminCmd where
  | reload
  | listSkills
  | enable (name : String)
  | disable (name : String)
  | scaffoldNew (name : String)
  | scaffoldUsage
  | usage
deriving DecidableEq, Repr

/-- `handle_skill_admin`'s parsing: `ADMIN_RELOAD_RE`, `LIST_SKILLS_RE`,
then `SKILL_CMD_RE` with the subcommand clean-up and dispatch.  `none`
means the utterance is not consumed. -/
def skillAdminCmd (low : String) : Option SkillAdminCmd :=
  if fullWithPunct ["reload", "reload it", "reload now", "refresh", "refresh it", "refresh now"] low then
    some .reload
  else if fullWithPunct ["list skills", "show skills", "what skills", "skills", "skills?"] low then
    some .listSkills
  else
    match skillCmdSearch low with
    | none => none
    | some captured =>
        let cmd := fixScaffoldTypo (stripFillerOnce (rstripPunct (pyStrip captured)))
        if cmd = "list" then some .listSkills
        else if cmd = "reload" then some .reload
        else if "enable ".data.isPrefixOf cmd.data then
          some (.enable (pyStrip ⟨cmd.data.drop 7⟩))
        else if "disable ".data.isPrefixOf cmd.data then
          some (.disable (pyStrip ⟨cmd.data.drop 8⟩))
        else if "scaffold ".data.isPrefixOf cmd.data then
          let name := pyStrip ⟨cmd.data.drop 9⟩
          if name = "" then some .scaffoldUsage else some (.scaffoldNew name)
        else some .usage

/-- Key/value class `[a-z0-9_ \-]` of the memory admin patterns. -/
def memKeyClass (c : Char) : Bool :=
  ('a' ≤ c && c ≤ 'z') || ('0' ≤ c && c ≤ '9') || c = '_' || c = ' ' || c = '-'

/-- `MEM_GET_RE`: `^memory get\s+([a-z0-9_ \-]{1,40})[.!]?$` (full
match).  `.`/`!` and end-of-string are outside the class, so the greedy
capture is the maximal class run, which must fit in 40 characters. -/
def memGetMatch (s : String) : Option String :=
  match pLit "memory get" s.data with
  | none => none
  | some r =>
      match pWs1 r with
      | none => none
      | some r2 =>
          let run := r2.takeWhile memKeyClass
          if run.length = 0 || run.length > 40 then none
          else
            match r2.drop run.length with
            | [] => some ⟨run⟩
            | ['.'] => some ⟨run⟩
            | ['!'] => some ⟨run⟩
            | _ => none

/-- The backtracking key search of `MEM_SET_RE`: try capture lengths from
the greedy maximum downwards; the characters handed back must be
whitespace (they are consumed by the following `\s*`) before the `=`. -/
def memSetTryKey (r2 : Chars) : Nat → Option (String × Chars)
  | 0 => none
  | k + 1 =>
      match (r2.drop (k + 1)).dropWhile pyIsSpace with
      | '=' :: r3 => some (⟨r2.take (k + 1)⟩, r3)
      | _ => memSetTryKey r2 k

/-- `(.+)$` after `=\s*`: greedy `\s*` then at least one character (the
inputs contain no newline). -/
def memSetVal (r3 : Chars) : Option String :=
  if r3.isEmpty then none
  else
    let v := r3.dropWhile pyIsSpace
    if v.isEmpty then some ⟨r3.drop (r3.length - 1)⟩ else some ⟨v⟩

/-- `MEM_SET_RE`: `^memory set\s+([a-z0-9_ \-]{1,40})\s*=\s*(.+)$`. -/
def memSetMatch (s : String) : Option (String × String) :=
  match pLit "memory set" s.data with
  | none => none
  | some r =>
      match pWs1 r with
      | none => none
      | some r2 =>
          let run := r2.takeWhile memKeyClass
          match memSetTryKey r2 (min run.length 40) with
          | none => none
          | some (keyRaw, r3) =>
              (memSetVal r3).map fun valRaw => (keyRaw, valRaw)

inductive MemAdminCmd where
  | list
  | get (key : String)
  | set (key val : String)
deriving DecidableEq, Repr

/-- `handle_memory_admin`'s parsing; keys are normalized with
`.strip().lower().replace(...)` exactly as in the source. -/
def memAdminCmd (low : String) : Option MemAdminCmd :=
  if fullWithPunct ["list memory", "show memory", "dump memory", "memory list"] low then
    some .list
  else
    match memGetMatch low with
    | some keyRaw => some (.get (normalizeCaptured keyRaw))
    | none =>
        match memSetMatch low with
        | some kv => some (.set (normalizeCaptured kv.1) (pyStrip kv.2))
        | none => none

/-- Lexicographic comparison used by Python `sorted` on `(key, value)`
pairs. -/
def pairLe (a b : String × String) : Bool :=
  if a.1 < b.1 then true
  else if b.1 < a.1 then false
  else decide (¬ b.2 < a.2)

def insertSorted (x : String × String) : List (String × String) → List (String × String)
  | [] => [x]
  | y :: rest => if pairLe x y then x :: y :: rest else y :: insertSorted x rest

def sortPairs : List (String × String) → List (String × String)
  | [] => []
  | x :: rest => insertSorted x (sortPairs rest)

/-- The reply text and store update of each memory-admin branch. -/
def memAdminReply (doc : MemDoc) : MemAdminCmd → String × MemDoc
  | .list =>
      let pairs := Memory.facts_like doc ""
      if pairs.isEmpty then
        ("Your memory is empty. Try adding some:\n" ++
         "  remember: user_name = Benjamin\n" ++
         "  remember: favorite_color = navy\n" ++
         "  remember: weather_default = Marble Falls, TX, US", doc)
      else
        ("Memory facts:\n" ++
          String.intercalate "\n"
            (((sortPairs pairs).map fun kv =>
              "• " ++ pyTitle (keySpaced kv.1) ++ ": " ++ kv.2).take 50), doc)
  | .get key =>
      (match Memory.recallKey doc key with
       | some v => pyTitle (keySpaced key) ++ ": " ++ v
       | none =>
           match Memory.recallKey doc ("favorite_" ++ key) with
           | some v => pyTitle (keySpaced key) ++ ": " ++ v
           | none => "No value saved for " ++ pyTitle (keySpaced key) ++ ".", doc)
  | .set key val =>
      ("Saved " ++ pyTitle (keySpaced key) ++ ": " ++ val, Memory.remember doc key val)

/-! ## Response orchestrator — `orion/core/llm_path.py`

The LLM collaborator is embedded as the three interactions the
orchestrator can make, in order: the streamed chunk sequence, a
non-streaming send on the same session, and a send after an explicit
reset. -/

structure LLMBehav where
  stream : String → List String
  send1 : String → String
  send2 : String → String

def APOLOGY : String :=
  "Sorry, I couldn't generate a response just now. Please try again."

/-- `context.say`: print, `speak` inside `try/except` (a voice failure is
caught and logged), then append a bot turn.  Returns the updated store
and whether speech succeeded. -/
def sayTurn (ttsFails : Bool) (doc : MemDoc) (text : String) : MemDoc × Bool :=
  (Memory.appendConversation doc none (some text), !ttsFails)

/-- `user_for_llm`: the fact preface is prepended when non-empty. -/
def llmQuery (doc : MemDoc) (user : String) : String :=
  let preface := formatFactContext (relevantFacts doc user 6)
  if preface ≠ "" then preface ++ "\n\nUser: " ++ user else user

/-- Stage 1: the non-empty streamed chunks, concatenated and stripped. -/
def llmStreamed (llm : LLMBehav) (doc : MemDoc) (user : String) : String :=
  pyStrip (String.join ((llm.stream (llmQuery doc user)).filter (fun c => c ≠ "")))

/-- Stage 2: fall back to a non-streaming send on the same session. -/
def llmAfterSend (llm : LLMBehav) (doc : MemDoc) (user : String) : String :=
  if llmStreamed llm doc user = "" then llm.send1 (llmQuery doc user)
  else llmStreamed llm doc user

/-- Stage 3: reset the session, then try one more send. -/
def llmAfterReset (llm : LLMBehav) (doc : MemDoc) (user : String) : String :=
  if llmAfterSend llm doc user = "" then llm.send2 (llmQuery doc user)
  else llmAfterSend llm doc user

/-- Stage 4: always say something. -/
def llmReply (llm : LLMBehav) (doc : MemDoc) (user : String) : String :=
  if llmAfterReset llm doc user = "" then APOLOGY else llmAfterReset llm doc user

/-- `llm_respond(ctx, user)`: fact preface, stream → send → reset+send →
static apology, speak inside `try/except` (its failure is caught), then
log the bot turn.  Returns (reply, store after the bot-turn append,
speech succeeded). -/
def llmRespond (llm : LLMBehav) (ttsFails : Bool) (doc : MemDoc) (user : String) :
    String × MemDoc × Bool :=
  (llmReply llm doc user,
   Memory.appendConversation doc none (some (llmReply llm doc user)),
   !ttsFails)

/-! ## Per-utterance pipeline — `orion/core/runtime.py` (`run_loop`'s
"Process command" block) -/

inductive Stage where
  | skillAdmin
  | memAdmin
  | fastPath
  | skillRun
  | legacyRun
  | llmStage
deriving DecidableEq, Repr

/-- Stages that consume the utterance before the user turn is logged. -/
def Stage.isEarly : Stage → Bool
  | .skillAdmin => true
  | .memAdmin => true
  | .fastPath => true
  | _ => false

structure ProcTrace where
  stage : Stage
  reply : String
  appends : List Turn
  doc : MemDoc
  primaryConsulted : Bool
  legacyConsulted : Bool
  llmConsulted : Bool

structure CtxM where
  doc : MemDoc
  skills : List (String × LoadedSkill)
  router : PluginRouter
  enableState : EnableState
  candidates : List (Option LoadedSkill)
  fs : FS
  regRun : String → String → Except String String
  llm : LLMBehav
  ttsFails : Bool

/-- `reload_skills(ctx)`. -/
def reloadText (skills : List (String × LoadedSkill)) : String :=
  "Reloaded skills: " ++
    (if skills.isEmpty then "(none)" else String.intercalate ", " (skills.map (·.1)))

/-- The `list skills` rendering shared by both admin branches. -/
def listAllRows (cands : List (Option LoadedSkill)) (st : EnableState) : String :=
  let rows := (listAll cands st).map fun r =>
    "• " ++ r.1 ++ " [" ++ (if r.2.1 then "on" else "off") ++ "] — " ++ r.2.2
  "Installed skills:\n" ++ (if rows.isEmpty then "(none)" else String.intercalate "\n" rows)

/-- `p.name` of a scaffolded path (its final component). -/
def pathBaseName (p : String) : String :=
  ⟨(p.data.reverse.takeWhile (fun c => c ≠ '/')).reverse⟩

/-- The reply text and context update of each skill-admin branch. -/
def skillAdminExec (ctx : CtxM) : SkillAdminCmd → String × CtxM
  | .reload =>
      let skills := loadSkills ctx.candidates ctx.enableState
      (reloadText skills, { ctx with skills := skills, router := mkPluginRouter skills })
  | .listSkills => (listAllRows ctx.candidates ctx.enableState, ctx)
  | .enable name =>
      (setEnabledMsg name true,
       { ctx with enableState := setEnabledState ctx.enableState name true })
  | .disable name =>
      (setEnabledMsg name false,
       { ctx with enableState := setEnabledState ctx.enableState name false })
  | .scaffoldNew name =>
      let r := scaffold ctx.fs name
      ("Created " ++ pathBaseName r.1 ++ ". Edit it, then say 'skill reload'.",
       { ctx with fs := r.2 })
  | .scaffoldUsage => ("Usage: skill scaffold <name>", ctx)
  | .usage =>
      ("Usage: skill list | skill reload | skill enable <name> | skill disable <name> | skill scaffold <name>",
       ctx)

/-- The LLM stage of the fallback chain (reached only through the legacy
block, so both routers have been consulted). -/
def llmStageRun (llm : LLMBehav) (ttsFails : Bool) (doc : MemDoc) (user : String) : ProcTrace :=
  let r := llmRespond llm ttsFails doc user
  { stage := .llmStage, reply := r.1, appends := [⟨none, some r.1⟩], doc := r.2.1,
    primaryConsulted := true, legacyConsulted := true, llmConsulted := true }

/-- The legacy-router block of `run_loop`: a legacy hit runs through the
static registry; a miss or a raising handler falls through to the LLM. -/
def legacyStage (regRun : String → String → Except String String) (llm : LLMBehav)
    (ttsFails : Bool) (doc : MemDoc) (user : String) : ProcTrace :=
  match legacyRoute user with
  | some name =>
      match regRun name user with
      | .ok result =>
          { stage := .legacyRun, reply := result, appends := [⟨none, some result⟩],
            doc := (sayTurn ttsFails doc result).1,
            primaryConsulted := true, legacyConsulted := true, llmConsulted := false }
      | .error _ => llmStageRun llm ttsFails doc user
  | none => llmStageRun llm ttsFails doc user

/-- The `Plugins → legacy → LLM` block of `run_loop`, entered after the
user turn has been logged.  A primary hit whose `run` raises falls
through to the legacy block (the exception is caught and printed). -/
def routeStage (router : PluginRouter) (regRun : String → String → Except String String)
    (llm : LLMBehav) (ttsFails : Bool) (doc : MemDoc) (user : String) : ProcTrace :=
  match router.route user with
  | some sk =>
      match sk.run user with
      | .ok result =>
          { stage := .skillRun, reply := result, appends := [⟨none, some result⟩],
            doc := (sayTurn ttsFails doc result).1,
            primaryConsulted := true, legacyConsulted := false, llmConsulted := false }
      | .error _ => legacyStage regRun llm ttsFails doc user
  | none => legacyStage regRun llm ttsFails doc user

/-- The whole "Process command" section of `run_loop`: skill admin →
memory admin → memory fast path (each short-circuits with one `say`),
else log the user turn and run the routing/LLM block.  `appends` records
the conversation-log appends of the utterance, in order. -/
def processCommand (ctx : CtxM) (user : String) : ProcTrace × CtxM :=
  let low := pyStrip (pyLower user)
  match skillAdminCmd low with
  | some cmd =>
      let r := skillAdminExec ctx cmd
      let doc' := (sayTurn ctx.ttsFails r.2.doc r.1).1
      ({ stage := .skillAdmin, reply := r.1, appends := [⟨none, some r.1⟩], doc := doc',
         primaryConsulted := false, legacyConsulted := false, llmConsulted := false },
       { r.2 with doc := doc' })
  | none =>
  match memAdminCmd low with
  | some cmd =>
      let r := memAdminReply ctx.doc cmd
      let doc' := (sayTurn ctx.ttsFails r.2 r.1).1
      ({ stage := .memAdmin, reply := r.1, appends := [⟨none, some r.1⟩], doc := doc',
         primaryConsulted := false, legacyConsulted := false, llmConsulted := false },
       { ctx with doc := doc' })
  | none =>
      match memoryAnswer ctx.doc user with
      | some a =>
          if a ≠ "" then
            let doc' := (sayTurn ctx.ttsFails ctx.doc a).1
            ({ stage := .fastPath, reply := a, appends := [⟨none, some a⟩], doc := doc',
               primaryConsulted := false, legacyConsulted := false, llmConsulted := false },
             { ctx with doc := doc' })
          else
            let docU := Memory.appendConversation ctx.doc (some user) none
            let t := routeStage ctx.router ctx.regRun ctx.llm ctx.ttsFails docU user
            ({ t with appends := ⟨some user, none⟩ :: t.appends }, { ctx with doc := t.doc })
      | none =>
          let docU := Memory.appendConversation ctx.doc (some user) none
          let t := routeStage ctx.router ctx.regRun ctx.llm ctx.ttsFails docU user
          ({ t with appends := ⟨some user, none⟩ :: t.appends }, { ctx with doc := t.doc })

/-! ## Orchestrator lemmas -/

theorem trimConv_length_min (l : List Turn) :
    (Memory.trimConv l).length = min l.length MAX_CONVERSATIONS := by
  unfold Memory.trimConv
  by_cases h : l.length > MAX_CONVERSATIONS
  · simp only [h, if_true, List.length_drop]
    omega
  · simp only [h, if_false]
    omega

theorem trimConv_getLast (l : List Turn) :
    (Memory.trimConv l).getLast? = l.getLast? := by
  unfold Memory.trimConv
  by_cases hlen : l.length > MAX_CONVERSATIONS
  · simp only [hlen, if_true]
    rw [List.getLast?_eq_getElem?, List.getLast?_eq_getElem?, List.getElem?_drop,
        List.length_drop]
    have hM : 0 < MAX_CONVERSATIONS := by decide
    have he : l.length - MAX_CONVERSATIONS + (l.length - (l.length - MAX_CONVERSATIONS) - 1)
        = l.length - 1 := by omega
    rw [he]
  · simp only [hlen, if_false]

theorem appendConversation_bot_length (doc : MemDoc) (b : String) :
    (Memory.appendConversation doc none (some b)).conversations.length
      = min (doc.conversations.length + 1) MAX_CONVERSATIONS := by
  unfold Memory.appendConversation
  simp only [Option.isSome_none, Option.isSome_some, Bool.or_true, if_true]
  rw [trimConv_length_min]
  simp

theorem appendConversation_bot_getLast (doc : MemDoc) (b : String) :
    (Memory.appendConversation doc none (some b)).conversations.getLast?
      = some ⟨none, some b⟩ := by
  unfold Memory.appendConversation
  simp only [Option.isSome_none, Option.isSome_some, Bool.or_true, if_true]
  rw [trimConv_getLast, List.getLast?_concat]

theorem llmReply_ne_empty (llm : LLMBehav) (doc : MemDoc) (user : String) :
    llmReply llm doc user ≠ "" := by
  unfold llmReply
  by_cases h : llmAfterReset llm doc user = ""
  · simp only [h, if_true]
    decide
  · simp only [h, if_false]
    exact h

/-! ### Claim C1 — the response fallback chain -/

set_option maxRecDepth 8192 in
/-- C1: for every utterance reaching `llm_respond` the reply is
non-empty, exactly one bot turn holding that reply is appended to the
conversation log, a failing `speak` changes neither the reply nor the
append, and the concrete scenarios pin the strict
stream → send → reset+send → apology order. -/
theorem llm_respond_fallback (llm : LLMBehav) (tts : Bool) (doc : MemDoc) (user : String) :
    (llmRespond llm tts doc user).1 ≠ "" ∧
    (llmRespond llm tts doc user).2.1.conversations.length
      = min (doc.conversations.length + 1) MAX_CONVERSATIONS ∧
    (llmRespond llm tts doc user).2.1.conversations.getLast?
      = some ⟨none, some (llmRespond llm tts doc user).1⟩ ∧
    (llmRespond llm true doc user).1 = (llmRespond llm false doc user).1 ∧
    (llmRespond llm true doc user).2.1 = (llmRespond llm false doc user).2.1 ∧
    (llmRespond ⟨fun _ => ["Hi", "", "!"], fun _ => "X", fun _ => "Y"⟩ false emptyDoc "q").1
      = "Hi!" ∧
    (llmRespond ⟨fun _ => [], fun _ => "A", fun _ => "B"⟩ false emptyDoc "q").1 = "A" ∧
    (llmRespond ⟨fun _ => [], fun _ => "", fun _ => "Hello"⟩ false emptyDoc "q").1 = "Hello" ∧
    (llmRespond ⟨fun _ => [], fun _ => "", fun _ => "Hello"⟩ false emptyDoc "q").2.1.conversations
      = [⟨none, some "Hello"⟩] ∧
    (llmRespond ⟨fun _ => [], fun _ => "", fun _ => ""⟩ false emptyDoc "q").1 = APOLOGY :=
  ⟨llmReply_ne_empty llm doc user,
   appendConversation_bot_length doc _,
   appendConversation_bot_getLast doc _,
   rfl, rfl, rfl, rfl, rfl, rfl, rfl⟩

/-! ### Claim C2 — primary router precedence over the legacy router -/

theorem legacyStage_legacyConsulted (regRun : String → String → Except String String)
    (llm : LLMBehav) (tts : Bool) (doc : MemDoc) (user : String) :
    (legacyStage regRun llm tts doc user).legacyConsulted = true := by
  unfold legacyStage llmStageRun
  cases h : legacyRoute user with
  | none => rfl
  | some nm =>
      dsimp only
      cases h2 : regRun nm user with
      | ok r => rfl
      | error e => rfl

/-- C2 (amended): the legacy router is consulted exactly when the primary
router finds nothing for the utterance or the primary skill's `run`
raises; whenever the primary skill runs successfully, the legacy router
is not consulted. -/
theorem legacy_router_consultation (router : PluginRouter)
    (regRun : String → String → Except String String) (llm : LLMBehav)
    (tts : Bool) (doc : MemDoc) (user : String) :
    (router.route user = none →
      (routeStage router regRun llm tts doc user).legacyConsulted = true) ∧
    (∀ sk r, router.route user = some sk → sk.run user = Except.ok r →
      (routeStage router regRun llm tts doc user).legacyConsulted = false ∧
      (routeStage router regRun llm tts doc user).stage = Stage.skillRun ∧
      (routeStage router regRun llm tts doc user).reply = r) ∧
    (∀ sk e, router.route user = some sk → sk.run user = Except.error e →
      (routeStage router regRun llm tts doc user).legacyConsulted = true) := by
  refine ⟨?_, ?_, ?_⟩
  · intro h
    unfold routeStage
    rw [h]
    exact legacyStage_legacyConsulted regRun llm tts doc user
  · intro sk r h1 h2
    unfold routeStage
    rw [h1]
    dsimp only
    rw [h2]
    exact ⟨rfl, rfl, rfl⟩
  · intro sk e h1 h2
    unfold routeStage
    rw [h1]
    dsimp only
    rw [h2]
    exact legacyStage_legacyConsulted regRun llm tts doc user

/-- A skill whose `run` always raises, with a trigger on "boom". -/
def skillBoom : LoadedSkill :=
  { name := "boom", description := "always raises",
    patterns := [fun s => strContainsSub s "boom"],
    run := fun _ => Except.error "boom failed" }

def routerBoom : PluginRouter := mkPluginRouter [("boom", skillBoom)]

/-- C2 counterexample: on "boom" the primary router returns a skill, yet
the legacy router is consulted because that skill's `run` raises. -/
theorem primary_hit_consults_legacy_counterexample :
    (routerBoom.route "boom").isSome = true ∧
    (routeStage routerBoom (fun _ _ => Except.ok "ok")
        ⟨fun _ => [], fun _ => "", fun _ => ""⟩ false emptyDoc "boom").legacyConsulted = true :=
  ⟨rfl, rfl⟩

/-- A skill whose `run` always succeeds, with a catch-all trigger. -/
def skillPing : LoadedSkill :=
  { name := "ping", description := "always answers",
    patterns := [fun _ => true], run := fun _ => Except.ok "pong" }

def routerPing : PluginRouter := mkPluginRouter [("ping", skillPing)]

/-- C2 witness: a successful primary skill keeps the legacy router out. -/
theorem legacy_router_consultation_witness :
    (routeStage routerPing (fun _ _ => Except.ok "ok")
        ⟨fun _ => [], fun _ => "", fun _ => ""⟩ false emptyDoc "hi").legacyConsulted = false ∧
    (routeStage routerPing (fun _ _ => Except.ok "ok")
        ⟨fun _ => [], fun _ => "", fun _ => ""⟩ false emptyDoc "hi").stage = Stage.skillRun ∧
    (routeStage routerPing (fun _ _ => Except.ok "ok")
        ⟨fun _ => [], fun _ => "", fun _ => ""⟩ false emptyDoc "hi").reply = "pong" :=
  (legacy_router_consultation routerPing (fun _ _ => Except.ok "ok")
      ⟨fun _ => [], fun _ => "", fun _ => ""⟩ false emptyDoc "hi").2.1
    skillPing "pong" rfl rfl

/-! ### Claim C3 (amended theorem) -/

/-- C3 (amended): `remember` stores the key verbatim; the
lowercase/underscore normalization is applied by the memory-admin set
handler before it calls `remember`. -/
theorem remember_stores_key_verbatim (doc : MemDoc) (k v k' : String) :
    Memory.recallKey (Memory.remember doc k v) k'
      = (if k' = k then some v else Memory.recallKey doc k') ∧
    memAdminCmd "memory set user name = ben"
      = some (MemAdminCmd.set "user_name" "ben") ∧
    Memory.recallKey (memAdminReply emptyDoc (MemAdminCmd.set "user_name" "ben")).2 "user_name"
      = some "ben" := by
  refine ⟨?_, by decide, by decide⟩
  unfold Memory.recallKey Memory.remember
  exact lookupD_dictInsert doc.facts k k' v

/-! ### Claim C6 — enable state and reload -/

theorem isEnabledIn_set (st : EnableState) (x : String) (b : Bool) :
    isEnabledIn x (setEnabledState st x b) = b := by
  unfold isEnabledIn setEnabledState
  rw [lookupD_dictInsert]
  simp

theorem lookupD_dictInsert_isSome {α : Type} (l : List (String × α)) (k k' : String) (v : α)
    (h : (lookupD l k').isSome = true) : (lookupD (dictInsert l k v) k').isSome = true := by
  rw [lookupD_dictInsert]
  by_cases he : k' = k <;> simp [he, h]

theorem loadSkillsGo_absent (st : EnableState) (x : String)
    (cands : List (Option LoadedSkill)) (acc : List (String × LoadedSkill))
    (hen : isEnabledIn x st = false) (hacc : lookupD acc x = none) :
    lookupD (loadSkillsGo st cands acc) x = none := by
  induction cands generalizing acc with
  | nil => exact hacc
  | cons c rest ih =>
      cases c with
      | none => exact ih acc hacc
      | some sk =>
          unfold loadSkillsGo
          by_cases hb : isEnabledIn sk.name st = true
          · simp only [hb, if_true]
            apply ih
            by_cases hn : sk.name = x
            · rw [hn] at hb
              rw [hen] at hb
              exact absurd hb (by decide)
            · rw [lookupD_dictInsert]
              have hxn : ¬ x = sk.name := fun e => hn e.symm
              simp [hxn, hacc]
          · simp only [hb, if_false]
            exact ih acc hacc

theorem loadSkillsGo_present (st : EnableState) (x : String)
    (cands : List (Option LoadedSkill)) (acc : List (String × LoadedSkill))
    (hen : isEnabledIn x st = true)
    (hyp : (∃ sk : LoadedSkill, some sk ∈ cands ∧ sk.name = x) ∨ (lookupD acc x).isSome = true) :
    (lookupD (loadSkillsGo st cands acc) x).isSome = true := by
  induction cands generalizing acc with
  | nil =>
      rcases hyp with ⟨sk, hmem, _⟩ | h
      · simp at hmem
      · exact h
  | cons c rest ih =>
      cases c with
      | none =>
          apply ih acc
          rcases hyp with ⟨sk, hmem, hname⟩ | h
          · exact Or.inl ⟨sk, by simpa using hmem, hname⟩
          · exact Or.inr h
      | some sk0 =>
          unfold loadSkillsGo
          by_cases hb : isEnabledIn sk0.name st = true
          · simp only [hb, if_true]
            apply ih
            rcases hyp with ⟨sk, hmem, hname⟩ | h
            · rcases List.mem_cons.mp hmem with heq | hmem'
              · refine Or.inr ?_
                have hsk : sk = sk0 := Option.some.inj heq
                rw [hsk] at hname
                rw [lookupD_dictInsert]
                simp [hname.symm]
              · exact Or.inl ⟨sk, hmem', hname⟩
            · exact Or.inr (lookupD_dictInsert_isSome acc sk0.name x sk0 h)
          · simp only [hb, if_false]
            apply ih
            rcases hyp with ⟨sk, hmem, hname⟩ | h
            · rcases List.mem_cons.mp hmem with heq | hmem'
              · exfalso
                have hsk : sk = sk0 := Option.some.inj heq
                rw [hsk] at hname
                rw [hname] at hb
                exact hb hen
              · exact Or.inl ⟨sk, hmem', hname⟩
            · exact Or.inr h

/-- C6: disabling a skill then reloading excludes it from the active set;
re-enabling and reloading restores it; a name absent from the persisted
mapping is treated as enabled. -/
theorem set_enabled_load_roundtrip (cands : List (Option LoadedSkill))
    (st : EnableState) (x : String)
    (hx : ∃ sk : LoadedSkill, some sk ∈ cands ∧ sk.name = x) :
    lookupD (loadSkills cands (setEnabledState st x false)) x = none ∧
    (lookupD (loadSkills cands (setEnabledState st x true)) x).isSome = true ∧
    (∀ (y : String) (st' : EnableState), lookupD st' y = none → isEnabledIn y st' = true) := by
  refine ⟨?_, ?_, ?_⟩
  · exact loadSkillsGo_absent _ x cands [] (isEnabledIn_set st x false) rfl
  · exact loadSkillsGo_present _ x cands [] (isEnabledIn_set st x true) (Or.inl hx)
  · intro y st' h
    unfold isEnabledIn
    rw [h]
    rfl

/-- An always-succeeding probe skill named "x". -/
def skillX : LoadedSkill :=
  { name := "x", description := "probe", patterns := [], run := fun q => Except.ok q }

/-- C6 witness at a one-candidate skill set. -/
theorem set_enabled_load_roundtrip_witness :
    lookupD (loadSkills [some skillX] (setEnabledState [] "x" false)) "x" = none ∧
    (lookupD (loadSkills [some skillX] (setEnabledState [] "x" true)) "x").isSome = true ∧
    isEnabledIn "x" [] = true := by
  have h := set_enabled_load_roundtrip [some skillX] [] "x" ⟨skillX, by simp, rfl⟩
  exact ⟨h.1, h.2.1, h.2.2 "x" [] rfl⟩

/-! ### Claim C9 — scaffold sanitization and idempotence -/

theorem toLower_step (c : Char) :
    Char.toLower (if skillClassChar c then c else '_')
      = if skillClassChar c then c.toLower else '_' := by
  by_cases hc : skillClassChar c = true
  · rw [if_pos hc, if_pos hc]
  · rw [if_neg hc, if_neg hc]
    decide

/-- C9: `scaffold` sanitizes the name by mapping every character outside
`[A-Za-z0-9_]` to an underscore and lowercasing, writes only when no file
exists at the resulting path, and is idempotent. -/
theorem scaffold_sanitize_idempotent (fs : FS) (name : String) :
    (sanitizeName name).data
      = name.data.map (fun c => if skillClassChar c then c.toLower else '_') ∧
    sanitizeName "Foo Bar!" = "foo_bar_" ∧
    scaffold (scaffold fs name).2 name = scaffold fs name ∧
    (lookupD fs (skillPath name) ≠ none → scaffold fs name = (skillPath name, fs)) := by
  refine ⟨?_, by decide, ?_, ?_⟩
  · unfold sanitizeName pyLower
    simp only [List.map_map]
    have hfun : (Char.toLower ∘ fun c => if skillClassChar c then c else '_')
        = fun c => if skillClassChar c then c.toLower else '_' :=
      funext fun c => toLower_step c
    rw [hfun]
  · unfold scaffold
    cases h : lookupD fs ("skills/" ++ sanitizeName name ++ ".py") with
    | some c => simp [h]
    | none => simp [h, lookupD_dictInsert]
  · intro hex
    unfold scaffold
    unfold skillPath at hex
    cases h : lookupD fs ("skills/" ++ sanitizeName name ++ ".py") with
    | some c => simp [h, skillPath]
    | none => exact absurd h hex

/-- C9 witness: with the file already present, `scaffold` returns the
path unchanged and writes nothing. -/
theorem scaffold_existing_witness :
    lookupD [("skills/foo.py", "old")] (skillPath "foo") ≠ none ∧
    scaffold [("skills/foo.py", "old")] "foo" = (skillPath "foo", [("skills/foo.py", "old")]) :=
  ⟨by decide,
   (scaffold_sanitize_idempotent [("skills/foo.py", "old")] "foo").2.2.2 (by decide)⟩

/-! ### Claim C7 — the memory fast path -/

/-- When neither admin handler consumes the utterance and the memory
bridge answers with non-empty text, the fast path short-circuits. -/
theorem processCommand_fastPath (ctx : CtxM) (user a : String)
    (h1 : skillAdminCmd (pyStrip (pyLower user)) = none)
    (h2 : memAdminCmd (pyStrip (pyLower user)) = none)
    (h3 : memoryAnswer ctx.doc user = some a) (ha : a ≠ "") :
    (processCommand ctx user).1
      = { stage := Stage.fastPath, reply := a, appends := [⟨none, some a⟩],
          doc := (sayTurn ctx.ttsFails ctx.doc a).1,
          primaryConsulted := false, legacyConsulted := false, llmConsulted := false } := by
  unfold processCommand
  dsimp only
  rw [h1]
  dsimp only
  rw [h2]
  dsimp only
  rw [h3]
  dsimp only
  rw [if_pos ha]

def nameDoc : MemDoc := { facts := [("user_name", "Ben")], conversations := [] }

/-- C7: with fact `user_name = Ben`, the utterance "what's my name?" is
answered by the memory fast path with "Your name is Ben.", and neither
the primary router, the legacy router, nor the LLM is consulted — for
every skill set, router, registry and LLM behaviour. -/
theorem memory_fast_path_name (sks : List (String × LoadedSkill)) (rt : PluginRouter)
    (en : EnableState) (cands : List (Option LoadedSkill)) (fs : FS)
    (regRun : String → String → Except String String) (llm : LLMBehav) (tts : Bool) :
    (processCommand ⟨nameDoc, sks, rt, en, cands, fs, regRun, llm, tts⟩
        "what's my name?").1.reply = "Your name is Ben." ∧
    (processCommand ⟨nameDoc, sks, rt, en, cands, fs, regRun, llm, tts⟩
        "what's my name?").1.stage = Stage.fastPath ∧
    (processCommand ⟨nameDoc, sks, rt, en, cands, fs, regRun, llm, tts⟩
        "what's my name?").1.primaryConsulted = false ∧
    (processCommand ⟨nameDoc, sks, rt, en, cands, fs, regRun, llm, tts⟩
        "what's my name?").1.legacyConsulted = false ∧
    (processCommand ⟨nameDoc, sks, rt, en, cands, fs, regRun, llm, tts⟩
        "what's my name?").1.llmConsulted = false := by
  have hlow : pyStrip (pyLower "what's my name?") = "what's my name?" := by decide
  have h1 : skillAdminCmd (pyStrip (pyLower "what's my name?")) = none := by
    rw [hlow]; decide
  have h2 : memAdminCmd (pyStrip (pyLower "what's my name?")) = none := by
    rw [hlow]; decide
  have h3 : memoryAnswer nameDoc "what's my name?" = some "Your name is Ben." := by decide
  have hp := processCommand_fastPath ⟨nameDoc, sks, rt, en, cands, fs, regRun, llm, tts⟩
    "what's my name?" "Your name is Ben." h1 h2 h3 (by decide)
  rw [hp]
  exact ⟨rfl, rfl, rfl, rfl, rfl⟩

/-! ### Claim C10 — which stages log a user turn -/

theorem llmStageRun_appends (llm : LLMBehav) (tts : Bool) (doc : MemDoc) (user : String) :
    (llmStageRun llm tts doc user).appends
      = [⟨none, some (llmStageRun llm tts doc user).reply⟩] ∧
    (llmStageRun llm tts doc user).stage.isEarly = false := ⟨rfl, rfl⟩

theorem legacyStage_appends (regRun : String → String → Except String String)
    (llm : LLMBehav) (tts : Bool) (doc : MemDoc) (user : String) :
    (legacyStage regRun llm tts doc user).appends
      = [⟨none, some (legacyStage regRun llm tts doc user).reply⟩] ∧
    (legacyStage regRun llm tts doc user).stage.isEarly = false := by
  unfold legacyStage
  cases h : legacyRoute user with
  | none => exact llmStageRun_appends llm tts doc user
  | some nm =>
      dsimp only
      cases h2 : regRun nm user with
      | ok r => exact ⟨rfl, rfl⟩
      | error e => exact llmStageRun_appends llm tts doc user

theorem routeStage_appends (rt : PluginRouter) (regRun : String → String → Except String String)
    (llm : LLMBehav) (tts : Bool) (doc : MemDoc) (user : String) :
    (routeStage rt regRun llm tts doc user).appends
      = [⟨none, some (routeStage rt regRun llm tts doc user).reply⟩] ∧
    (routeStage rt regRun llm tts doc user).stage.isEarly = false := by
  unfold routeStage
  cases h : rt.route user with
  | none => exact legacyStage_appends regRun llm tts doc user
  | some sk =>
      dsimp only
      cases h2 : sk.run user with
      | ok r => exact ⟨rfl, rfl⟩
      | error e => exact legacyStage_appends regRun llm tts doc user

/-- C10: an utterance consumed by skill admin, memory admin or the memory
fast path gets no user turn — only the single bot turn with the reply; an
utterance that falls through gets exactly one leading user turn; in every
case the stage's reply is logged as the final bot turn. -/
theorem user_turn_only_on_fallthrough (ctx : CtxM) (user : String) :
    (processCommand ctx user).1.appends
      = (if (processCommand ctx user).1.stage.isEarly then ([] : List Turn)
         else [⟨some user, none⟩]) ++ [⟨none, some (processCommand ctx user).1.reply⟩] := by
  unfold processCommand
  dsimp only
  cases h1 : skillAdminCmd (pyStrip (pyLower user)) with
  | some cmd => rfl
  | none =>
  dsimp only
  cases h2 : memAdminCmd (pyStrip (pyLower user)) with
  | some cmd => rfl
  | none =>
  dsimp only
  cases h3 : memoryAnswer ctx.doc user with
  | some a =>
      dsimp only
      by_cases ha : a = ""
      · rw [if_neg (not_not_intro ha)]
        dsimp only
        have hr := routeStage_appends ctx.router ctx.regRun ctx.llm ctx.ttsFails
          (Memory.appendConversation ctx.doc (some user) none) user
        rw [hr.1, hr.2]
        rfl
      · rw [if_pos ha]
        rfl
  | none =>
      dsimp only
      have hr := routeStage_appends ctx.router ctx.regRun ctx.llm ctx.ttsFails
        (Memory.appendConversation ctx.doc (some user) none) user
      rw [hr.1, hr.2]
      rfl

end Orion
